import Mathlib

/-!
Shallow embedding of the ilvm execution engine (src/eval.rs, data model from
src/syntax.rs and src/error.rs): a register machine with a word-addressed
heap, first-fit free-list allocation with merge-on-free, and block dispatch.

Machine words are `i32`, modelled as `Int` with explicit wrapping where the
source relies on fixed-width arithmetic; `usize` casts are modelled as
reduction modulo `2^64` (64-bit target).  A Rust panic (out-of-bounds `Vec`
index, division by zero) is modelled as a distinct `panik` outcome, separate
from the tagged `Error` results the evaluator returns.
-/

namespace ILVM

/-- Values (src/syntax.rs `Val`): a register reference or an `i32` immediate. -/
inductive Val
  | Reg (i : Nat)
  | Imm (n : Int)
deriving DecidableEq

/-- Binary operators (src/syntax.rs `Op2`). -/
inductive Op2
  | Add
  | Sub
  | Mul
  | Div
  | Mod
  | LT
  | Eq
deriving DecidableEq

/-- Printable items (src/syntax.rs `Printable`). -/
inductive Printable
  | Id (s : String)
  | Val (v : Val)
deriving DecidableEq

/-- Instructions (src/syntax.rs `Instr`): each straight-line instruction owns
its continuation. -/
inductive Instr
  | Goto (v : Val)
  | Exit (v : Val)
  | Abort
  | Op2 (r : Nat) (op : Op2) (v1 v2 : Val) (rest : Instr)
  | Copy (r : Nat) (v : Val) (rest : Instr)
  | Load (r : Nat) (v : Val) (rest : Instr)
  | Store (r : Nat) (v : Val) (rest : Instr)
  | IfZ (v : Val) (t f : Instr)
  | Malloc (r : Nat) (v : Val) (rest : Instr)
  | Print (p : Printable) (rest : Instr)
  | Free (r : Nat) (rest : Instr)
deriving DecidableEq

/-- Errors (src/error.rs `Error`); the `IO` variant is named `IOErr` here. -/
inductive Error
  | IOErr
  | Usage (s : String)
  | Parse (s : String)
  | Runtime (s : String)
deriving DecidableEq

/-- The free list (src/eval.rs `FreeList`): `(base, size)` extents in a
linked list. -/
inductive FreeList
  | Nil
  | Node (base : Nat) (size : Nat) (rest : FreeList)
deriving DecidableEq

/-- First-fit allocation (src/eval.rs `malloc`).  Note the partial-match arm
keeps `free_size - base` words, exactly as the source does. -/
def malloc : FreeList → Nat → Option (FreeList × Nat)
  | .Nil, _ => none
  | .Node base free_size rest, size =>
    if size = free_size then
      some (rest, base)
    else if size < free_size then
      some (.Node (base + size) (free_size - base) rest, base)
    else
      match malloc rest size with
      | none => none
      | some (rest2, base2) => some (.Node base free_size rest2, base2)

/-- Deallocation with eager coalescing (src/eval.rs `free`). -/
def free : FreeList → Nat → Nat → FreeList
  | .Nil, ptr, size => .Node ptr size .Nil
  | .Node base1 size1 rest1, ptr, size =>
    if ptr + size = base1 then
      .Node ptr (size + size1) rest1
    else if ptr + size < base1 then
      .Node ptr size (.Node base1 size1 rest1)
    else if ptr = base1 + size1 then
      free rest1 base1 (size + size1)
    else
      .Node base1 size1 (free rest1 ptr size)

/-- Reduce an integer into the `i32` range, two's-complement style. -/
def wrap32 (x : Int) : Int := (x + 2 ^ 31) % 2 ^ 32 - 2 ^ 31

/-- The Rust cast `i32 as usize` on a 64-bit target: reduction modulo
`2^64` (negative values become huge addresses). -/
def usizeOfI32 (x : Int) : Nat := (x % 2 ^ 64).toNat

/-- The Rust cast `usize as i32`: truncation to the low 32 bits,
interpreted signed. -/
def i32OfUsize (n : Nat) : Int := wrap32 n

/-- Machine state (src/eval.rs `State`).  The `HashMap<usize, usize>` of
allocated blocks is modelled as a lookup function (only `get` and `insert`
are used by the source). -/
structure State where
  heap : List Int
  registers : List Int
  free_list : FreeList
  alloc_blocks : Nat → Option Nat

/-- The block dispatch table (src/eval.rs `Env`). -/
structure Env where
  instructions : Int → Option Instr

/-- Value resolution (src/eval.rs `eval_val`): `reg[i]` is an unguarded
slice index, so an out-of-range register yields `none` (a Rust panic). -/
def evalVal (reg : List Int) (v : Val) : Option Int :=
  match v with
  | .Imm n => some n
  | .Reg i => reg[i]?

/-- Binary operators (src/eval.rs `eval_op2`).  Division and modulo are the
unchecked Rust `/` and `%`: divisor `0` (or `i32::MIN` by `-1`) panics,
modelled as `none`; the other operators wrap. -/
def evalOp2 (op2 : Op2) (m n : Int) : Option Int :=
  match op2 with
  | .Add => some (wrap32 (m + n))
  | .Sub => some (wrap32 (m - n))
  | .Mul => some (wrap32 (m * n))
  | .Div => if n = 0 ∨ (m = -2 ^ 31 ∧ n = -1) then none else some (Int.tdiv m n)
  | .Mod => if n = 0 ∨ (m = -2 ^ 31 ∧ n = -1) then none else some (Int.tmod m n)
  | .LT => some (if m < n then 1 else 0)
  | .Eq => some (if m = n then 1 else 0)

/-- The Rust `Vec` index-assignment `registers[r] = x`: `none` models the
panic when `r` is out of range. -/
def setReg (regs : List Int) (r : Nat) (x : Int) : Option (List Int) :=
  if r < regs.length then some (regs.set r x) else none

/-- Insertion into the allocated-blocks table (`HashMap::insert`). -/
def insertAB (m : Nat → Option Nat) (k v : Nat) : Nat → Option Nat :=
  fun q => if q = k then some v else m q

/-- Outcome of one instruction: continue at the next instruction, halt with
the evaluator's `Result<i32, Error>`, or hit a Rust panic. -/
inductive StepRes
  | next (st : State) (i : Instr)
  | halt (r : Except Error Int) (st : State)
  | panik

/-- One instruction of src/eval.rs `eval_rec`: everything the match arm does
before the tail call on the continuation. -/
def step (env : Env) (st : State) : Instr → StepRes
  | .Copy r v rest =>
    match evalVal st.registers v with
    | none => .panik
    | some x =>
      match setReg st.registers r x with
      | none => .panik
      | some regs => .next { st with registers := regs } rest
  | .Op2 r op v1 v2 rest =>
    match evalVal st.registers v1 with
    | none => .panik
    | some m =>
      match evalVal st.registers v2 with
      | none => .panik
      | some n =>
        match evalOp2 op m n with
        | none => .panik
        | some x =>
          match setReg st.registers r x with
          | none => .panik
          | some regs => .next { st with registers := regs } rest
  | .Load r v rest =>
    match evalVal st.registers v with
    | none => .panik
    | some a =>
      if usizeOfI32 a < st.heap.length then
        match setReg st.registers r (st.heap.getD (usizeOfI32 a) 0) with
        | none => .panik
        | some regs => .next { st with registers := regs } rest
      else
        .halt (.error (.Runtime "invalid address")) st
  | .Store r v rest =>
    match st.registers[r]? with
    | none => .panik
    | some x =>
      if usizeOfI32 x < st.heap.length then
        match evalVal st.registers v with
        | none => .panik
        | some w => .next { st with heap := st.heap.set (usizeOfI32 x) w } rest
      else
        .halt (.error (.Runtime "invalid address")) st
  | .Goto v =>
    match evalVal st.registers v with
    | none => .panik
    | some code_ptr =>
      match env.instructions code_ptr with
      | some i => .next st i
      | none => .halt (.error (.Runtime "goto invalid code address")) st
  | .Print _ rest => .next st rest
  | .Exit v =>
    match evalVal st.registers v with
    | none => .panik
    | some x => .halt (.ok x) st
  | .Abort => .halt (.error (.Runtime "called abort")) st
  | .IfZ v t f =>
    match evalVal st.registers v with
    | none => .panik
    | some x => if x = 0 then .next st t else .next st f
  | .Malloc r v rest =>
    match evalVal st.registers v with
    | none => .panik
    | some x =>
      if usizeOfI32 x = 0 then
        match setReg st.registers r 0 with
        | none => .panik
        | some regs => .next { st with registers := regs } rest
      else
        match malloc st.free_list (usizeOfI32 x) with
        | none =>
          -- the source swaps the free list out before the fallible call, so
          -- the OOM early-return leaves `free_list` as `Nil`
          .halt (.error (.Runtime "malloc OOM")) { st with free_list := .Nil }
        | some (free_list2, ptr) =>
          match setReg st.registers r (i32OfUsize ptr) with
          | none => .panik
          | some regs =>
            .next { st with free_list := free_list2, registers := regs,
                            alloc_blocks := insertAB st.alloc_blocks ptr (usizeOfI32 x) } rest
  | .Free r rest =>
    match st.registers[r]? with
    | none => .panik
    | some x =>
      match st.alloc_blocks (usizeOfI32 x) with
      | none => .halt (.error (.Runtime "free bad ptr")) st
      | some size =>
        -- the source reads the size but never removes the entry
        .next { st with free_list := free st.free_list (usizeOfI32 x) size } rest

/-- Result of a (fuel-bounded) run. -/
inductive RunRes
  | halted (r : Except Error Int) (st : State)
  | panik
  | timeout

/-- Fuel-bounded iteration of `step`, the trampoline form of the recursive
src/eval.rs `eval_rec`. -/
def evalRec (env : Env) : Nat → State → Instr → RunRes
  | 0, _, _ => .timeout
  | fuel + 1, st, i =>
    match step env st i with
    | .next st2 i2 => evalRec env fuel st2 i2
    | .halt r st2 => .halted r st2
    | .panik => .panik

/-- The fresh machine state built by src/eval.rs `eval`: zeroed heap and
registers, address 0 reserved, a single free extent from 1. -/
def initState (heap_size num_registers : Nat) : State :=
  { heap := List.replicate heap_size 0
    registers := List.replicate num_registers 0
    free_list := .Node 1 (heap_size - 1) .Nil
    alloc_blocks := fun _ => none }

/-- Entry point (src/eval.rs `eval`): look up block 0 and run. -/
def eval (heap_size num_registers : Nat) (blocks : Int → Option Instr)
    (fuel : Nat) : RunRes :=
  match blocks 0 with
  | none => .halted (.error (.Usage "Expected block 0")) (initState heap_size num_registers)
  | some i => evalRec { instructions := blocks } fuel (initState heap_size num_registers) i

/-- The `Result<i32, Error>` of a halted run, if it halted. -/
def RunRes.result : RunRes → Option (Except Error Int)
  | .halted r _ => some r
  | _ => none

/-- The free list at the end of a halted run, if it halted. -/
def RunRes.finalFreeList : RunRes → Option FreeList
  | .halted _ st => some st.free_list
  | _ => none

/-- The exit value of a run that halted with `Ok`. -/
def RunRes.okValue : RunRes → Option Int
  | .halted (.ok n) _ => some n
  | _ => none

/-- Whether a run ended in a Rust panic. -/
def RunRes.isPanik : RunRes → Bool
  | .panik => true
  | _ => false

/-- Every extent length in the free list is below `bound`. -/
def sizesBelow : FreeList → Nat → Bool
  | .Nil, _ => true
  | .Node _ s rest, bound => decide (s < bound) && sizesBelow rest bound

/-- All register indices the value mentions are below `n`. -/
def valRegInBounds (n : Nat) : Val → Bool
  | .Imm _ => true
  | .Reg i => decide (i < n)

/-- Block 0 of the double-free scenario: `r0 = malloc(1); free(r0);
free(r0); exit(0)`. -/
def doubleFreeProg : Instr :=
  .Malloc 0 (.Imm 1) (.Free 0 (.Free 0 (.Exit (.Imm 0))))

/-- The block table holding only `doubleFreeProg` at address 0. -/
def doubleFreeBlocks : Int → Option Instr :=
  fun a => if a = 0 then some doubleFreeProg else none

/-- Block 0 of the division-by-zero scenario: `r0 = 1 / 0; exit(r0)`. -/
def divZeroProg : Instr :=
  .Op2 0 .Div (.Imm 1) (.Imm 0) (.Exit (.Reg 0))

/-- The block table holding only `divZeroProg` at address 0. -/
def divZeroBlocks : Int → Option Instr :=
  fun a => if a = 0 then some divZeroProg else none

/-- C1: the claim says a partial first-fit match on extent `(base, length)`
with `length > n` leaves the remaining extent `(base + n, length - n)`.  The
code instead computes the remaining length as `length - base`: allocating 10
words from the single extent `(1, 99)` leaves `(11, 98)`, not `(11, 89)`. -/
theorem malloc_partial_split_keeps_length_minus_base :
    malloc (FreeList.Node 1 99 .Nil) 10 = some (FreeList.Node 11 98 .Nil, 1) ∧
    (98 : Nat) ≠ 99 - 10 := by decide

/-- C2: the claim says a successful free removes the pointer's entry from the
allocated table, so a second free of the same address faults with an
invalid-free Runtime error.  The code never removes the entry: running
`r0 = malloc(1); free(r0); free(r0); exit(0)` on a 3-word heap terminates
normally with exit value 0, and the second free has re-inserted the extent,
leaving the corrupted free list `(1,2),(1,1)`. -/
theorem double_free_succeeds_and_corrupts_free_list :
    (eval 3 1 doubleFreeBlocks 10).okValue = some 0 ∧
    (eval 3 1 doubleFreeBlocks 10).finalFreeList =
      some (FreeList.Node 1 2 (FreeList.Node 1 1 .Nil)) := by decide

/-- C3: the claim says division or modulo by zero terminates with a tagged
Runtime fault, never an uncaught panic.  The code evaluates the unchecked
Rust `/`, which panics on divisor 0: running `r0 = 1 / 0; exit(r0)` ends in
a panic, not a `Runtime` error, and `evalOp2` is undefined there. -/
theorem div_by_zero_panics :
    (eval 1 1 divZeroBlocks 5).isPanik = true ∧ evalOp2 .Div 1 0 = none := by decide

/-- C4: the claim says that after freeing every outstanding allocation the
free list is again a single extent covering `[1, heap_size)`.  With
`heap_size = 100` (initial extent `(1, 99)`), the in-capacity sequence
`malloc(2); free` leaves the single extent `(1, 100)`, which covers
`[1, 101)`, not `[1, 100)` — the split defect loses accounting. -/
theorem malloc_free_does_not_restore_full_extent :
    malloc (FreeList.Node 1 99 .Nil) 2 = some (FreeList.Node 3 98 .Nil, 1) ∧
    free (FreeList.Node 3 98 .Nil) 1 2 = FreeList.Node 1 100 .Nil ∧
    (100 : Nat) ≠ 100 - 1 := by decide

/-- C5: the claim says the union of free and allocated extents stays within
`[0, heap_size)` after every operation.  With `heap_size = 100`, a single
`allocate(10)` from the fresh state leaves the free extent `(11, 98)`,
which reaches address `11 + 98 = 109 > 100`. -/
theorem malloc_free_extent_exceeds_heap :
    malloc (FreeList.Node 1 99 .Nil) 10 = some (FreeList.Node 11 98 .Nil, 1) ∧
    100 < 11 + 98 := by decide

lemma getq_isSome (l : List Int) (n : Nat) : (l[n]?).isSome = true ↔ n < l.length := by
  induction l generalizing n with
  | nil => simp
  | cons a t ih =>
    cases n with
    | zero => simp
    | succ m => simpa using ih m

lemma set_getq_self (l : List Int) (n : Nat) (a : Int) (h : n < l.length) :
    (l.set n a)[n]? = some a := by
  induction l generalizing n with
  | nil => simp at h
  | cons b t ih =>
    cases n with
    | zero => simp [List.set]
    | succ m =>
      simp only [List.set, List.getElem?_cons_succ]
      exact ih m (by simpa using h)

lemma set_getD_self (l : List Int) (n : Nat) (a : Int) (h : n < l.length) :
    (l.set n a).getD n 0 = a := by
  simp [List.getD, set_getq_self l n a h]

lemma setReg_isSome (regs : List Int) (r : Nat) (x : Int) :
    (setReg regs r x).isSome = true ↔ r < regs.length := by
  by_cases h : r < regs.length <;> simp [setReg, h]

lemma evalVal_isSome (regs : List Int) (v : Val) :
    (evalVal regs v).isSome = true ↔ valRegInBounds regs.length v = true := by
  cases v with
  | Imm n => simp [evalVal, valRegInBounds]
  | Reg i => simp [evalVal, valRegInBounds, getq_isSome]

lemma malloc_none_of_sizes_below (fl : FreeList) (bound n : Nat)
    (hs : sizesBelow fl bound = true) (hn : bound ≤ n) : malloc fl n = none := by
  induction fl with
  | Nil => simp [malloc]
  | Node base s rest ih =>
    rw [sizesBelow, Bool.and_eq_true, decide_eq_true_eq] at hs
    have h1 : ¬ n = s := by omega
    have h2 : ¬ n < s := by omega
    simp [malloc, h1, h2, ih hs.2]

lemma usizeOfI32_neg_large (x : Int) (h1 : x < 0) (h2 : -2 ^ 31 ≤ x) :
    2 ^ 63 ≤ usizeOfI32 x := by
  simp only [usizeOfI32]
  omega

/-- C6: storing a resolved value `w` at an in-bounds address (taken from
register `r`) and immediately loading from that address writes `w` into the
destination register; a load or store whose address is out of `[0,
heap_size)` halts with a Runtime fault instead of touching the heap, and a
negative address is always out of bounds once cast to `usize` (for any heap
of at most `2^32` words). -/
theorem load_store_roundtrip_and_bounds
    (env : Env) (st : State) (r rd : Nat) (v : Val) (x w : Int) (rest rest2 : Instr)
    (hr : st.registers[r]? = some x)
    (hv : evalVal st.registers v = some w)
    (hrd : rd < st.registers.length) :
    (usizeOfI32 x < st.heap.length →
      step env st (.Store r v (.Load rd (.Reg r) rest)) =
        .next { st with heap := st.heap.set (usizeOfI32 x) w } (.Load rd (.Reg r) rest) ∧
      step env { st with heap := st.heap.set (usizeOfI32 x) w } (.Load rd (.Reg r) rest) =
        .next { st with heap := st.heap.set (usizeOfI32 x) w,
                        registers := st.registers.set rd w } rest ∧
      (st.registers.set rd w)[rd]? = some w) ∧
    (st.heap.length ≤ usizeOfI32 x →
      step env st (.Store r v rest) = .halt (.error (.Runtime "invalid address")) st ∧
      step env st (.Load rd (.Reg r) rest2) = .halt (.error (.Runtime "invalid address")) st) ∧
    (x < 0 → -2 ^ 31 ≤ x → st.heap.length ≤ 2 ^ 32 → st.heap.length ≤ usizeOfI32 x) := by
  refine ⟨?_, ?_, ?_⟩
  · intro h
    refine ⟨?_, ?_, ?_⟩
    · simp [step, hr, hv, h]
    · have hlen : (st.heap.set (usizeOfI32 x) w).length = st.heap.length :=
        List.length_set st.heap (usizeOfI32 x) w
      simp [step, evalVal, hr, hlen, h, setReg, hrd,
            set_getD_self st.heap (usizeOfI32 x) w h]
    · exact set_getq_self st.registers rd w hrd
  · intro h
    have h2 : ¬ usizeOfI32 x < st.heap.length := by omega
    exact ⟨by simp [step, hr, h2], by simp [step, evalVal, hr, h2]⟩
  · intro h1 h2 h3
    have := usizeOfI32_neg_large x h1 h2
    omega

theorem load_store_roundtrip_and_bounds_witness :
    ((initState 4 2).registers.set 1 7)[1]? = some 7 :=
  ((load_store_roundtrip_and_bounds ⟨fun _ => none⟩ (initState 4 2) 0 1 (.Imm 7) 0 7
      .Abort .Abort rfl rfl (by decide)).1 (by decide)).2.2

/-- C7: an allocate instruction whose resolved size is 0 always succeeds,
writes the reserved null address 0 to the destination register, and leaves
the free list and the allocated table unchanged. -/
theorem malloc_zero_returns_null
    (env : Env) (st : State) (r : Nat) (v : Val) (rest : Instr)
    (hv : evalVal st.registers v = some 0)
    (hr : r < st.registers.length) :
    step env st (.Malloc r v rest) =
      .next { st with registers := st.registers.set r 0 } rest := by
  have h0 : usizeOfI32 0 = 0 := by decide
  simp [step, hv, h0, setReg, hr]

theorem malloc_zero_returns_null_witness :
    step ⟨fun _ => none⟩ (initState 4 1) (.Malloc 0 (.Imm 0) .Abort) =
      .next { initState 4 1 with registers := (initState 4 1).registers.set 0 0 } .Abort :=
  malloc_zero_returns_null ⟨fun _ => none⟩ (initState 4 1) 0 (.Imm 0) .Abort rfl (by decide)

/-- C8: if the block table has no entry at address 0, `eval` halts with a
`Usage` fault (not `Runtime`), and the machine state it reports is exactly
the untouched initial state — no instruction ever executed. -/
theorem missing_block_zero_is_usage_fault
    (heap_size num_registers fuel : Nat) (blocks : Int → Option Instr)
    (h : blocks 0 = none) :
    eval heap_size num_registers blocks fuel =
      .halted (.error (.Usage "Expected block 0")) (initState heap_size num_registers) := by
  simp [eval, h]

theorem missing_block_zero_is_usage_fault_witness :
    eval 2 1 (fun _ => none) 5 =
      .halted (.error (.Usage "Expected block 0")) (initState 2 1) :=
  missing_block_zero_is_usage_fault 2 1 5 (fun _ => none) rfl

/-- C9: register access is an unguarded vector index: writing register `r`
succeeds exactly when `r < num_registers`, resolving a value succeeds
exactly when every register index it mentions is below `num_registers`, and
a copy instruction panics exactly when one of its register indices is out of
range — so under the in-range precondition no register access can fail. -/
theorem register_access_unguarded
    (env : Env) (st : State) (r : Nat) (v : Val) (rest : Instr) :
    (∀ x : Int, (setReg st.registers r x).isSome = true ↔ r < st.registers.length) ∧
    ((evalVal st.registers v).isSome = true ↔
      valRegInBounds st.registers.length v = true) ∧
    (step env st (.Copy r v rest) = .panik ↔
      ¬ (valRegInBounds st.registers.length v = true ∧ r < st.registers.length)) := by
  refine ⟨fun x => setReg_isSome st.registers r x, evalVal_isSome st.registers v, ?_⟩
  cases hv : evalVal st.registers v with
  | none =>
    have hb : ¬ valRegInBounds st.registers.length v = true := by
      rw [← evalVal_isSome, hv]
      simp
    simp [step, hv, hb]
  | some x =>
    have hb : valRegInBounds st.registers.length v = true := by
      rw [← evalVal_isSome, hv]
      simp
    cases hs : setReg st.registers r x with
    | none =>
      have hr : ¬ r < st.registers.length := by
        rw [← setReg_isSome st.registers r x, hs]
        simp
      simp [step, hv, hs, hb, hr]
    | some regs =>
      have hr : r < st.registers.length := by
        rw [← setReg_isSome st.registers r x, hs]
        simp
      simp [step, hv, hs, hb, hr]

/-- C10: an allocate instruction whose resolved size is a negative `i32`
casts it to a huge `usize`, so (whenever every free-list extent is shorter
than `2^63` words) allocation faults with the out-of-memory Runtime error:
no pointer is returned, and the registers and allocated table are
unchanged in the faulting state. -/
theorem malloc_negative_size_oom
    (env : Env) (st : State) (r : Nat) (v : Val) (rest : Instr) (x : Int)
    (hv : evalVal st.registers v = some x)
    (hneg : x < 0) (hrange : -2 ^ 31 ≤ x)
    (hsizes : sizesBelow st.free_list (2 ^ 63) = true) :
    malloc st.free_list (usizeOfI32 x) = none ∧
    step env st (.Malloc r v rest) =
      .halt (.error (.Runtime "malloc OOM")) { st with free_list := .Nil } := by
  have hbig := usizeOfI32_neg_large x hneg hrange
  have hnone := malloc_none_of_sizes_below st.free_list (2 ^ 63) (usizeOfI32 x) hsizes hbig
  have hne : ¬ usizeOfI32 x = 0 := by omega
  exact ⟨hnone, by simp [step, hv, hne, hnone]⟩

theorem malloc_negative_size_oom_witness :
    malloc (initState 100 1).free_list (usizeOfI32 (-1)) = none ∧
    step ⟨fun _ => none⟩ (initState 100 1) (.Malloc 0 (.Imm (-1)) .Abort) =
      .halt (.error (.Runtime "malloc OOM")) { initState 100 1 with free_list := .Nil } :=
  malloc_negative_size_oom ⟨fun _ => none⟩ (initState 100 1) 0 (.Imm (-1)) .Abort (-1)
    rfl (by decide) (by decide) (by decide)

end ILVM
